import Mathlib

/-!
Shallow embedding of the service-tui program (a curses dashboard over
systemd units).  The pure helpers (`apply_filter`, the mark toggle, the
unit-listing parser) are translated function by function; the stateful
`main_loop` is embedded as a state record `St` together with a per-frame
adjustment (`frameAdjust`, the cursor clamp and scroll computation at the
top of the loop body) and a key-dispatch step (`keyStep`).  External
effects (the gateway subprocess output, user confirmations, the result of
a lifecycle action) enter as event data.
-/

namespace ServiceTui

/-- One systemd unit record as built by `fetch_services`. -/
structure Service where
  unit : String
  load : String
  active : String
  sub : String
  description : String
deriving DecidableEq

/-- Characters treated as whitespace by the Python `str.split(None, _)`
used in `fetch_services`. -/
def pyIsSpace (c : Char) : Bool :=
  c == ' ' || c == '\t' || c == '\n' || c == '\r' || c == '\x0b' || c == '\x0c'

/-- Python `s.split(None, maxsplit)`: skip leading whitespace, emit
whitespace-delimited tokens, and once `maxsplit` splits have been made
return the remainder (leading whitespace stripped) as the final field. -/
def pySplit : List Char → Nat → List (List Char)
  | cs, 0 =>
    let rest := cs.dropWhile pyIsSpace
    if rest.isEmpty then [] else [rest]
  | cs, n + 1 =>
    let rest := cs.dropWhile pyIsSpace
    if rest.isEmpty then []
    else rest.takeWhile (fun c => !pyIsSpace c) ::
      pySplit (rest.dropWhile (fun c => !pyIsSpace c)) n

/-- One iteration of the parsing loop of `fetch_services`: `line.split(None, 4)`
must produce at least 5 fields, otherwise the line is skipped. -/
def parseLine (line : String) : Option Service :=
  match pySplit line.data 4 with
  | [u, l, a, s, d] => some ⟨⟨u⟩, ⟨l⟩, ⟨a⟩, ⟨s⟩, ⟨d⟩⟩
  | _ => none

/-- The parsing loop of `fetch_services`, over the stdout lines of the
`systemctl list-units` invocation. -/
def fetch_services : List String → List Service
  | [] => []
  | line :: rest =>
    match parseLine line with
    | none => fetch_services rest
    | some svc => svc :: fetch_services rest

/-- Python `str.lower`. -/
def strLower (s : String) : String := ⟨s.data.map Char.toLower⟩

/-- Helper for substring containment: list-level `needle` begins `hay`. -/
def isPre : List Char → List Char → Bool
  | [], _ => true
  | _ :: _, [] => false
  | a :: as, b :: bs => a == b && isPre as bs

/-- Helper for substring containment: `needle` occurs inside `hay`. -/
def isSub : List Char → List Char → Bool
  | n, [] => isPre n []
  | n, b :: bs => isPre n (b :: bs) || isSub n bs

/-- Python `sub in hay` on strings. -/
def strContains (hay sub : String) : Bool := isSub sub.data hay.data

/-- The match predicate shared by `apply_filter` and the `n`/`N` handlers:
`ql in s['unit'].lower() or ql in s['description'].lower()` with `ql`
the lowered query. -/
def matchesQuery (q : String) (s : Service) : Bool :=
  strContains (strLower s.unit) (strLower q) ||
    strContains (strLower s.description) (strLower q)

/-- `apply_filter(all_services, q)`: identity for a falsy query
(`None` or the empty string), otherwise keep the units satisfying the
case-insensitive substring predicate. -/
def apply_filter (all_services : List Service) (q : Option String) : List Service :=
  match q with
  | none => all_services
  | some qs =>
    if qs = "" then all_services
    else all_services.filter (fun s => matchesQuery qs s)

/-- The `m` key's mutation of the mark list: `marks.remove(unit)` (first
occurrence) when present, else `marks.append(unit)`. -/
def toggle_mark (marks : List String) (unit : String) : List String :=
  if unit ∈ marks then marks.erase unit else marks ++ [unit]

/-- Python `str.strip()`. -/
def pyStrip (s : String) : String :=
  ⟨((s.data.dropWhile pyIsSpace).reverse.dropWhile pyIsSpace).reverse⟩

/-- Python `s[:n]`. -/
def pyTake (n : Nat) (s : String) : String := ⟨s.data.take n⟩

/-- The predicate tested at index `i` of the displayed list in the
`n`/`N` handlers; out-of-range indices never match. -/
def matchAt (l : List Service) (q : String) (i : Nat) : Bool :=
  match l.get? i with
  | some s => matchesQuery q s
  | none => false

/-- The forward scan `for i in range(start, len(services))` of the `n`
handler, with explicit fuel `len - start`. -/
def scanUp (l : List Service) (q : String) : Nat → Nat → Option Nat
  | _, 0 => none
  | i, fuel + 1 => if matchAt l q i then some i else scanUp l q (i + 1) fuel

/-- The `n` handler's search: first matching index strictly after `cursor`. -/
def nextMatch (l : List Service) (q : String) (cursor : Nat) : Option Nat :=
  scanUp l q (cursor + 1) (l.length - (cursor + 1))

/-- The backward scan `for i in range(start, -1, -1)` of the `N` handler. -/
def scanDown (l : List Service) (q : String) : Nat → Option Nat
  | 0 => if matchAt l q 0 then some 0 else none
  | i + 1 => if matchAt l q (i + 1) then some (i + 1) else scanDown l q i

/-- The `N` handler's search: first matching index strictly before `cursor`
(scanning downward); from cursor 0 the Python range is empty. -/
def prevMatch (l : List Service) (q : String) : Nat → Option Nat
  | 0 => none
  | c + 1 => scanDown l q c

/-- The cursor positions produced by repeatedly invoking the `n` handler's
search, fuel-bounded (a fuel of `l.length` is enough, see `visitSeq`). -/
def visitChainF (l : List Service) (q : String) : Nat → Nat → List Nat
  | _, 0 => []
  | c, fuel + 1 =>
    match nextMatch l q c with
    | none => []
    | some i => i :: visitChainF l q i fuel

/-- The full sequence of cursor positions visited by repeated `n` presses
starting at cursor `c`, until the search reports no match. -/
def visitSeq (l : List Service) (q : String) (c : Nat) : List Nat :=
  visitChainF l q c l.length

/-- The mutable state of `main_loop`: the raw list, the active query, the
filtered list, cursor, scroll offset, status line, the in-memory mark list
and the mark list last written to disk by `save_marks`. -/
structure St where
  all_services : List Service
  filter_q : Option String
  services : List Service
  cursor : Int
  offset : Int
  status_msg : String
  marks : List String
  marks_file : List String
deriving DecidableEq

/-- Events consumed by one iteration of `main_loop`.  External data the
handlers read (gateway stdout lines, confirmation answers, a lifecycle
action's result) is carried on the event. -/
inductive Ev where
  | down | up | pgdn | pgup
  | refresh (out_lines : List String)
  | search (val : Option String)
  | keyM
  | keyS (confirmed : Bool) (action_ok : Bool) (action_out : String) (out_lines : List String)
  | keyE (enabled : Bool) (confirmed : Bool) (action_ok : Bool) (action_out : String) (out_lines : List String)
  | keyN | keyNBig
  | enter | help | other
deriving DecidableEq

/-- `max_lines = max(1, bottom - top + 1)` with `top = 1`, `bottom = h - 3`. -/
def mlOf (h : Int) : Int := max 1 (h - 3)

/-- `clamp_cursor()` of `main_loop`: first raise a negative cursor to 0,
then pull a cursor past the end back to `max(0, len - 1)`. -/
def clamp_cursor (len : Nat) (c : Int) : Int :=
  let c1 := if c < 0 then 0 else c
  if c1 ≥ (len : Int) then max 0 ((len : Int) - 1) else c1

/-- The top of each `main_loop` iteration: clamp the cursor, then move the
offset just enough to keep the cursor inside the `ml`-row viewport.  The
resulting state is the one rendered by `draw_main`. -/
def frameAdjust (ml : Int) (st : St) : St :=
  let c := clamp_cursor st.services.length st.cursor
  let off :=
    if c < st.offset then c
    else if c ≥ st.offset + ml then c - ml + 1
    else st.offset
  { st with cursor := c, offset := off }

/-- `services[cursor]`, total via a default (the cursor is in range
whenever the handlers that use it run). -/
def selected (st : St) : Service :=
  (st.services.get? st.cursor.toNat).getD ⟨"", "", "", "", ""⟩

/-- The key dispatch of `main_loop`, one branch per handled key. -/
def keyStep (ml : Int) (st : St) (e : Ev) : St :=
  let max_idx : Int := (st.services.length : Int) - 1
  match e with
  | .down => { st with cursor := min max_idx (st.cursor + 1) }
  | .up => { st with cursor := max 0 (st.cursor - 1) }
  | .pgdn => { st with cursor := min max_idx (st.cursor + max 1 (ml - 1)) }
  | .pgup => { st with cursor := max 0 (st.cursor - max 1 (ml - 1)) }
  | .refresh lines =>
    let alls := fetch_services lines
    { st with all_services := alls, services := apply_filter alls st.filter_q,
              status_msg := "refreshed" }
  | .search val =>
    let fq : Option String :=
      match val with
      | none => none
      | some v => if v = "" then none else some v
    let msg :=
      match fq with
      | some v => "filter set to \x27" ++ v ++ "\x27"
      | none => "filter cleared"
    { st with filter_q := fq, services := apply_filter st.all_services fq,
              cursor := 0, offset := 0, status_msg := msg }
  | .keyM =>
    if st.services.isEmpty then st
    else
      let u := (selected st).unit
      let msg := if u ∈ st.marks then "unmarked " ++ u else "marked " ++ u
      let marks := toggle_mark st.marks u
      { st with marks := marks, marks_file := marks, status_msg := msg }
  | .keyS confirmed ok out lines =>
    if st.services.isEmpty then st
    else
      let svc := selected st
      let st1 :=
        if confirmed then
          { st with status_msg :=
              if ok then (if svc.active = "active" then "stopped" else "started")
              else "error: " ++ pyTake 60 (pyStrip out) }
        else st
      let alls := fetch_services lines
      { st1 with all_services := alls, services := apply_filter alls st.filter_q }
  | .keyE enabled confirmed ok out lines =>
    if st.services.isEmpty then st
    else
      let st1 :=
        if confirmed then
          { st with status_msg :=
              if ok then (if enabled then "disabled" else "enabled")
              else "error: " ++ pyTake 60 (pyStrip out) }
        else st
      let alls := fetch_services lines
      { st1 with all_services := alls, services := apply_filter alls st.filter_q }
  | .keyN =>
    match st.filter_q with
    | some q =>
      if q ≠ "" ∧ st.services.isEmpty = false then
        match nextMatch st.services q st.cursor.toNat with
        | some i => { st with cursor := (i : Int) }
        | none => { st with status_msg := "no more matches" }
      else st
    | none => st
  | .keyNBig =>
    match st.filter_q with
    | some q =>
      if q ≠ "" ∧ st.services.isEmpty = false then
        match prevMatch st.services q st.cursor.toNat with
        | some i => { st with cursor := (i : Int) }
        | none => { st with status_msg := "no previous match" }
      else st
    | none => st
  | .enter => st
  | .help => { st with status_msg := "help closed" }
  | .other => { st with status_msg := "" }

/-- Running `main_loop` through a list of `(terminal height, event)`
iterations: each iteration first performs the frame adjustment (rendered
state), then handles the key. -/
def iterState : St → List (Int × Ev) → St
  | st, [] => st
  | st, (h, e) :: rest => iterState (keyStep (mlOf h) (frameAdjust (mlOf h) st) e) rest

/-- The state of `main_loop` just after initialisation. -/
def initSt (all : List Service) (marks : List String) : St :=
  { all_services := all, filter_q := none, services := apply_filter all none,
    cursor := 0, offset := 0, status_msg := "ready",
    marks := marks, marks_file := marks }

/-- The state rendered by `draw_main` on a frame with terminal height `h`. -/
def rendered (h : Int) (st : St) : St := frameAdjust (mlOf h) st

/-- The viewport invariant of the spec, for viewport height `ml`. -/
def viewInv (ml : Int) (st : St) : Prop :=
  (st.services ≠ [] → 0 ≤ st.offset ∧ st.offset ≤ st.cursor ∧ st.cursor < st.offset + ml) ∧
  (st.services = [] → st.cursor = 0)

/-- Sample unit whose identifier and description contain "ssh". -/
def sshSvc : Service :=
  ⟨"sshd.service", "loaded", "active", "running", "OpenSSH server daemon"⟩

/-- Sample unit unrelated to "ssh". -/
def cronSvc : Service :=
  ⟨"crond.service", "loaded", "active", "running", "Command Scheduler"⟩

/-- Sample unit for the Scenario C witness. -/
def nginxSvc : Service :=
  ⟨"nginx.service", "loaded", "active", "running", "A high performance web server"⟩

/-- The unit used in the concrete Scenario A run. -/
def scenarioSvc : Service :=
  ⟨"unit0.service", "loaded", "active", "running", "service number zero"⟩

/-- Scenario A's initial state: a 50-element list, no query, cursor and
offset 0. -/
def scenarioInit : St := initSt (List.replicate 50 scenarioSvc) []

/-- `n` presses of the down key on a terminal of height 13 (so the
viewport holds `max 1 (13 - 3) = 10` rows). -/
def downs (n : Nat) : List (Int × Ev) := List.replicate n ((13 : Int), Ev.down)

/-- A concrete freshly-initialised state over two sample units. -/
def stSearch : St := initSt [sshSvc, cronSvc] []

/-- A concrete state with one mark, for the mark-toggle witness. -/
def stMark : St := initSt [sshSvc] ["a"]

/-- A concrete state with an active query, for the navigator witness. -/
def stNav : St :=
  { all_services := [sshSvc], filter_q := some "ssh", services := [sshSvc],
    cursor := 0, offset := 0, status_msg := "ready", marks := [], marks_file := [] }

/-- A concrete state selecting an active nginx unit, for the Scenario C
witness. -/
def stNginx : St := initSt [nginxSvc] []

lemma mlOf_pos (h : Int) : 1 ≤ mlOf h := le_max_left _ _

lemma clamp_nonneg (n : Nat) (c : Int) : 0 ≤ clamp_cursor n c := by
  unfold clamp_cursor
  dsimp only
  split_ifs <;> omega

lemma clamp_zero (c : Int) : clamp_cursor 0 c = 0 := by
  unfold clamp_cursor
  dsimp only
  split_ifs <;> omega

lemma clamp_lt (n : Nat) (c : Int) (hn : 0 < n) : clamp_cursor n c < n := by
  unfold clamp_cursor
  dsimp only
  split_ifs <;> omega

lemma frameAdjust_services (ml : Int) (st : St) : (frameAdjust ml st).services = st.services :=
  rfl

lemma frameAdjust_cursor (ml : Int) (st : St) :
    (frameAdjust ml st).cursor = clamp_cursor st.services.length st.cursor :=
  rfl

lemma frameAdjust_offset (ml : Int) (st : St) :
    (frameAdjust ml st).offset =
      (if clamp_cursor st.services.length st.cursor < st.offset then
        clamp_cursor st.services.length st.cursor
      else if clamp_cursor st.services.length st.cursor ≥ st.offset + ml then
        clamp_cursor st.services.length st.cursor - ml + 1
      else st.offset) :=
  rfl

lemma frame_establishes (ml : Int) (st : St) (hml : 1 ≤ ml) (hoff : 0 ≤ st.offset) :
    viewInv ml (frameAdjust ml st) ∧ 0 ≤ (frameAdjust ml st).offset := by
  simp only [viewInv, frameAdjust_services, frameAdjust_cursor, frameAdjust_offset]
  have h0 := clamp_nonneg st.services.length st.cursor
  rcases eq_or_ne st.services ([] : List Service) with hemp | hne
  · have hz : clamp_cursor st.services.length st.cursor = 0 := by
      simp only [hemp, List.length_nil]
      exact clamp_zero st.cursor
    rw [hz]
    refine ⟨⟨fun h => absurd hemp h, fun _ => rfl⟩, ?_⟩
    split_ifs <;> omega
  · have hlen : 0 < st.services.length := List.length_pos.mpr hne
    have hlt := clamp_lt st.services.length st.cursor hlen
    refine ⟨⟨fun _ => ?_, fun h => absurd h hne⟩, ?_⟩
    · split_ifs <;> omega
    · split_ifs <;> omega

lemma keyStep_offset_nonneg (ml : Int) (st : St) (e : Ev) (hoff : 0 ≤ st.offset) :
    0 ≤ (keyStep ml st e).offset := by
  cases e <;> unfold keyStep <;> dsimp only <;> repeat' split
  all_goals first | exact hoff | omega

lemma iter_offset_nonneg (evs : List (Int × Ev)) (st : St) (hoff : 0 ≤ st.offset) :
    0 ≤ (iterState st evs).offset := by
  induction evs generalizing st with
  | nil => exact hoff
  | cons p rest ih =>
    obtain ⟨h, e⟩ := p
    simp only [iterState]
    exact ih _ (keyStep_offset_nonneg _ _ _ (frame_establishes (mlOf h) _ (mlOf_pos h) hoff).2)

/-- C1: for every sequence of events (cursor moves by one or by a page,
list replacement by refresh or query change, viewport-height change via
the per-frame terminal height), the state rendered on each frame satisfies
`0 <= offset <= cursor < offset + viewportHeight` whenever the filtered
list is non-empty, and `cursor = 0` whenever it is empty. -/
theorem viewport_invariant_spec (all : List Service) (marks : List String)
    (evs : List (Int × Ev)) (h : Int) :
    viewInv (mlOf h) (rendered h (iterState (initSt all marks) evs)) := by
  have hoff : 0 ≤ (iterState (initSt all marks) evs).offset :=
    iter_offset_nonneg evs _ (le_refl 0)
  exact (frame_establishes (mlOf h) _ (mlOf_pos h) hoff).1

/-- C5: starting from cursor 0 and offset 0 over a 50-element filtered
list with viewport height 10, twelve down-by-one moves render cursor 12
and offset 3; the offset first becomes 1 on the frame where the cursor
reaches 10, and is still 0 after nine moves. -/
theorem scenario_a_spec :
    (rendered 13 (iterState scenarioInit (downs 12))).cursor = 12 ∧
    (rendered 13 (iterState scenarioInit (downs 12))).offset = 3 ∧
    (rendered 13 (iterState scenarioInit (downs 10))).cursor = 10 ∧
    (rendered 13 (iterState scenarioInit (downs 10))).offset = 1 ∧
    (rendered 13 (iterState scenarioInit (downs 9))).cursor = 9 ∧
    (rendered 13 (iterState scenarioInit (downs 9))).offset = 0 := by
  set_option maxRecDepth 4000 in decide

/-- C2: `apply_filter` returns an order-preserving subsequence of its
input, every element of the result satisfies the case-insensitive
substring predicate on identifier or description, and a `None` or empty
query is the identity transform. -/
theorem apply_filter_charn (L : List Service) (q : Option String) :
    (apply_filter L q).Sublist L ∧
    (∀ qs, q = some qs → qs ≠ "" →
      ∀ s ∈ apply_filter L q, matchesQuery qs s = true) ∧
    ((q = none ∨ q = some "") → apply_filter L q = L) := by
  refine ⟨?_, ?_, ?_⟩
  · cases q with
    | none => exact List.Sublist.refl L
    | some qs =>
      by_cases h : qs = ""
      · simp [apply_filter, h]
      · simp only [apply_filter, if_neg h]
        exact List.filter_sublist L
  · intro qs hq hne s hs
    subst hq
    simp only [apply_filter, if_neg hne] at hs
    exact (List.mem_filter.mp hs).2
  · rintro (rfl | rfl) <;> simp [apply_filter]

/-- Witness for C2 at a concrete list and query. -/
theorem apply_filter_charn_witness :
    (apply_filter [sshSvc, cronSvc] (some "ssh")).Sublist [sshSvc, cronSvc] ∧
    matchesQuery "ssh" sshSvc = true ∧
    apply_filter [sshSvc, cronSvc] none = [sshSvc, cronSvc] := by
  have h := apply_filter_charn [sshSvc, cronSvc] (some "ssh")
  have h2 := apply_filter_charn [sshSvc, cronSvc] none
  have hv : apply_filter [sshSvc, cronSvc] (some "ssh") = [sshSvc] := by decide
  exact ⟨h.1, h.2.1 "ssh" rfl (by decide) sshSvc (hv ▸ List.mem_singleton_self sshSvc),
    h2.2.2 (Or.inl rfl)⟩

/-- C6: submitting a search sets the active query to the entered text
(cleared on an empty or absent submission), recomputes the filtered list
from the current full list, and resets cursor and offset to 0. -/
theorem search_submit_spec (ml : Int) (st : St) (val : Option String) :
    (keyStep ml st (Ev.search val)).cursor = 0 ∧
    (keyStep ml st (Ev.search val)).offset = 0 ∧
    ((val = none ∨ val = some "") → (keyStep ml st (Ev.search val)).filter_q = none) ∧
    (∀ v, val = some v → v ≠ "" → (keyStep ml st (Ev.search val)).filter_q = some v) ∧
    (keyStep ml st (Ev.search val)).services =
      apply_filter st.all_services (keyStep ml st (Ev.search val)).filter_q := by
  refine ⟨rfl, rfl, ?_, ?_, rfl⟩
  · rintro (rfl | rfl)
    · rfl
    · simp [keyStep]
  · intro v hv hne
    subst hv
    simp [keyStep, hne]

/-- Witness for C6 at a concrete state and query. -/
theorem search_submit_spec_witness :
    (keyStep 10 stSearch (Ev.search (some "ssh"))).cursor = 0 ∧
    (keyStep 10 stSearch (Ev.search (some "ssh"))).offset = 0 ∧
    (keyStep 10 stSearch (Ev.search (some "ssh"))).filter_q = some "ssh" ∧
    (keyStep 10 stSearch (Ev.search (some "ssh"))).services =
      apply_filter stSearch.all_services (some "ssh") := by
  have h := search_submit_spec 10 stSearch (some "ssh")
  refine ⟨h.1, h.2.1, h.2.2.2.1 "ssh" rfl (by decide), ?_⟩
  rw [h.2.2.2.2, h.2.2.2.1 "ssh" rfl (by decide)]

/-- C10: with no active query, or with an empty filtered view, the `n`
and `N` keys leave the whole state (cursor, offset, filtered view, status
message) unchanged. -/
theorem nav_keys_noop_spec (ml : Int) (st : St) :
    (st.filter_q = none ∨ st.services = []) →
    keyStep ml st Ev.keyN = st ∧ keyStep ml st Ev.keyNBig = st := by
  rintro (hq | hs)
  · simp [keyStep, hq]
  · cases hfq : st.filter_q with
    | none => simp [keyStep, hfq]
    | some q => simp [keyStep, hfq, hs]

/-- Witness for C10 at a concrete state with no active query. -/
theorem nav_keys_noop_spec_witness :
    keyStep 10 stSearch Ev.keyN = stSearch ∧ keyStep 10 stSearch Ev.keyNBig = stSearch :=
  nav_keys_noop_spec 10 stSearch (Or.inl rfl)

/-- C3 counterexample: a refresh whose gateway query yields no output
(the unreachable-gateway case with a runnable binary) does not leave the
previous filtered view in place: the view is replaced by the empty parse
and the status message claims success. -/
theorem refresh_failure_cex :
    (initSt [sshSvc] []).services = [sshSvc] ∧
    (keyStep 10 (initSt [sshSvc] []) (Ev.refresh [])).services = [] ∧
    (keyStep 10 (initSt [sshSvc] []) (Ev.refresh [])).status_msg = "refreshed" :=
  ⟨rfl, rfl, rfl⟩

/-- C3 amended: a refresh unconditionally replaces the service list with
the parse of whatever output the directory query produced and sets the
status message to "refreshed"; when the gateway is unreachable and emits
nothing, the previous filtered view is therefore replaced by the empty
list rather than left in place. -/
theorem refresh_replaces_view (ml : Int) (st : St) (lines : List String) :
    keyStep ml st (Ev.refresh lines) =
      { st with all_services := fetch_services lines,
                services := apply_filter (fetch_services lines) st.filter_q,
                status_msg := "refreshed" } :=
  rfl

/-- C8: when a confirmed lifecycle action fails, the status message
becomes "error: " followed by the stripped diagnostic output truncated to
60 characters, and the service list is still re-fetched and re-filtered. -/
theorem action_failure_spec (ml : Int) (st : St) (out : String) (lines : List String)
    (hs : st.services.isEmpty = false) :
    (keyStep ml st (Ev.keyS true false out lines)).status_msg =
      "error: " ++ pyTake 60 (pyStrip out) ∧
    (keyStep ml st (Ev.keyS true false out lines)).all_services = fetch_services lines ∧
    (keyStep ml st (Ev.keyS true false out lines)).services =
      apply_filter (fetch_services lines) st.filter_q := by
  refine ⟨?_, ?_, ?_⟩ <;> simp [keyStep, hs]

/-- Witness for C8: Scenario C, a denied stop of nginx. -/
theorem action_failure_spec_witness :
    (keyStep 10 stNginx
      (Ev.keyS true false "Access denied" ["x.service loaded active running X"])).status_msg =
      "error: Access denied" ∧
    (keyStep 10 stNginx
      (Ev.keyS true false "Access denied" ["x.service loaded active running X"])).all_services =
      fetch_services ["x.service loaded active running X"] := by
  have h := action_failure_spec 10 stNginx "Access denied"
    ["x.service loaded active running X"] (by decide)
  exact ⟨h.1.trans (by decide), h.2.1⟩

lemma pySplit_length_le (n : Nat) (cs : List Char) : (pySplit cs n).length ≤ n + 1 := by
  induction n generalizing cs with
  | zero =>
    unfold pySplit
    dsimp only
    split_ifs <;> simp
  | succ k ih =>
    unfold pySplit
    dsimp only
    split_ifs
    · simp
    · simpa using Nat.succ_le_succ (ih _)

lemma parseLine_eq_none (line : String) (h : (pySplit line.data 4).length < 5) :
    parseLine line = none := by
  unfold parseLine
  split
  · next u l a s d heq =>
    rw [heq] at h
    simp at h
  · rfl

lemma parseLine_eq_some (line : String) (u l a s d : List Char)
    (h : pySplit line.data 4 = [u, l, a, s, d]) :
    parseLine line = some ⟨⟨u⟩, ⟨l⟩, ⟨a⟩, ⟨s⟩, ⟨d⟩⟩ := by
  unfold parseLine
  rw [h]

lemma list_len5 {α : Type} (ps : List α) (h : ps.length = 5) :
    ∃ a b c d e, ps = [a, b, c, d, e] := by
  rcases ps with _ | ⟨a, _ | ⟨b, _ | ⟨c, _ | ⟨d, _ | ⟨e, tail⟩⟩⟩⟩⟩ <;>
    simp only [List.length_nil, List.length_cons] at h
  · omega
  · omega
  · omega
  · omega
  · omega
  · have ht : tail = [] := by
      have : tail.length = 0 := by omega
      exact List.length_eq_zero.mp this
    exact ⟨a, b, c, d, e, by rw [ht]⟩

/-- C9: a listing line that does not split into at least 5
whitespace-separated fields is skipped by `fetch_services`; a line that
does yields exactly one record whose identifier, load-state, active-state,
sub-state and description are the five fields in order (the split caps at
5 fields, so "at least 5" means exactly 5 parts). -/
theorem fetch_parse_spec (line : String) (rest : List String) :
    ((pySplit line.data 4).length < 5 →
      fetch_services (line :: rest) = fetch_services rest) ∧
    (∀ p1 p2 p3 p4 p5, pySplit line.data 4 = [p1, p2, p3, p4, p5] →
      fetch_services (line :: rest) =
        ⟨⟨p1⟩, ⟨p2⟩, ⟨p3⟩, ⟨p4⟩, ⟨p5⟩⟩ :: fetch_services rest) ∧
    (¬ (pySplit line.data 4).length < 5 →
      ∃ p1 p2 p3 p4 p5, pySplit line.data 4 = [p1, p2, p3, p4, p5]) := by
  refine ⟨?_, ?_, ?_⟩
  · intro h
    simp only [fetch_services, parseLine_eq_none line h]
  · intro p1 p2 p3 p4 p5 h
    simp only [fetch_services, parseLine_eq_some line _ _ _ _ _ h]
  · intro h
    have hle := pySplit_length_le 4 line.data
    exact list_len5 _ (by omega)

/-- Witness for C9: one well-formed line parsed, one malformed line
skipped. -/
theorem fetch_parse_spec_witness :
    fetch_services ["nginx.service loaded active running Web server", "bad line"] =
      [⟨"nginx.service", "loaded", "active", "running", "Web server"⟩] := by
  have h1 := (fetch_parse_spec "nginx.service loaded active running Web server"
    ["bad line"]).2.1
  have h2 := (fetch_parse_spec "bad line" []).1
  rw [h1 "nginx.service".data "loaded".data "active".data "running".data
    "Web server".data (by decide), h2 (by decide)]
  rfl

lemma mem_erase_of_nodup {l : List String} {a b : String} (hnd : l.Nodup) :
    a ∈ l.erase b ↔ a ≠ b ∧ a ∈ l :=
  List.Nodup.mem_erase_iff hnd

/-- C7: on a duplicate-free mark list (the Mark Set), toggling the same
identifier twice restores the prior membership state for every
identifier, a toggle preserves freedom from duplicates, and the `m`
handler persists the toggled list synchronously (the saved file equals
the new in-memory list). -/
theorem mark_toggle_spec (marks : List String) (u : String) :
    (marks.Nodup → ∀ x, x ∈ toggle_mark (toggle_mark marks u) u ↔ x ∈ marks) ∧
    (marks.Nodup → (toggle_mark marks u).Nodup) ∧
    (∀ ml st, st.services.isEmpty = false →
      (keyStep ml st Ev.keyM).marks = toggle_mark st.marks (selected st).unit ∧
      (keyStep ml st Ev.keyM).marks_file = (keyStep ml st Ev.keyM).marks) := by
  refine ⟨?_, ?_, ?_⟩
  · intro hnd x
    unfold toggle_mark
    by_cases hu : u ∈ marks
    · rw [if_pos hu]
      have hnotin : u ∉ marks.erase u := by
        intro hmem
        exact ((mem_erase_of_nodup hnd).mp hmem).1 rfl
      rw [if_neg hnotin]
      simp only [List.mem_append, List.mem_singleton]
      constructor
      · rintro (hx | rfl)
        · exact ((mem_erase_of_nodup hnd).mp hx).2
        · exact hu
      · intro hx
        by_cases hxu : x = u
        · exact Or.inr hxu
        · exact Or.inl ((mem_erase_of_nodup hnd).mpr ⟨hxu, hx⟩)
    · rw [if_neg hu]
      have hin : u ∈ marks ++ [u] := by simp
      rw [if_pos hin, List.erase_append_right _ hu]
      simp
  · intro hnd
    unfold toggle_mark
    by_cases hu : u ∈ marks
    · rw [if_pos hu]
      exact hnd.erase u
    · rw [if_neg hu]
      simp [List.nodup_append, hnd, hu]
  · intro ml st hsv
    simp [keyStep, hsv]

/-- Witness for C7: a double toggle on a concrete two-element mark list,
and a persisted toggle from a concrete state. -/
theorem mark_toggle_spec_witness :
    (("a" ∈ toggle_mark (toggle_mark ["a", "b"] "a") "a") ↔ "a" ∈ (["a", "b"] : List String)) ∧
    (keyStep 10 stMark Ev.keyM).marks = toggle_mark stMark.marks (selected stMark).unit ∧
    (keyStep 10 stMark Ev.keyM).marks_file = (keyStep 10 stMark Ev.keyM).marks := by
  have h := mark_toggle_spec ["a", "b"] "a"
  have h3 := h.2.2 10 stMark (by decide)
  exact ⟨h.1 (by decide) "a", h3.1, h3.2⟩

lemma matchAt_false_of_le (l : List Service) (q : String) (i : Nat) (h : l.length ≤ i) :
    matchAt l q i = false := by
  unfold matchAt
  rw [List.get?_eq_none.mpr h]

lemma matchAt_lt (l : List Service) (q : String) (i : Nat) (h : matchAt l q i = true) :
    i < l.length := by
  by_contra hh
  push_neg at hh
  rw [matchAt_false_of_le l q i hh] at h
  exact Bool.false_ne_true h

lemma scanUp_eq_none (l : List Service) (q : String) (fuel i : Nat)
    (h : ∀ k, i ≤ k → matchAt l q k = false) :
    scanUp l q i fuel = none := by
  induction fuel generalizing i with
  | zero => rfl
  | succ f ih =>
    unfold scanUp
    rw [h i le_rfl]
    simp only [Bool.false_eq_true, if_false]
    exact ih (i + 1) (fun k hk => h k (by omega))

lemma scanUp_eq_some (l : List Service) (q : String) (fuel : Nat) :
    ∀ i j, scanUp l q i fuel = some j →
      i ≤ j ∧ matchAt l q j = true ∧ ∀ k, i ≤ k → k < j → matchAt l q k = false := by
  induction fuel with
  | zero =>
    intro i j h
    exact absurd h (by simp [scanUp])
  | succ f ih =>
    intro i j h
    unfold scanUp at h
    by_cases hm : matchAt l q i = true
    · rw [if_pos hm] at h
      obtain rfl := Option.some.inj h
      exact ⟨le_rfl, hm, fun k hk1 hk2 => by omega⟩
    · rw [if_neg hm] at h
      have hm' : matchAt l q i = false := by
        simpa using hm
      obtain ⟨h1, h2, h3⟩ := ih (i + 1) j h
      refine ⟨by omega, h2, fun k hk1 hk2 => ?_⟩
      rcases eq_or_ne k i with rfl | hki
      · exact hm'
      · exact h3 k (by omega) hk2

lemma scanUp_none_imp (l : List Service) (q : String) (fuel : Nat) :
    ∀ i, scanUp l q i fuel = none →
      ∀ k, i ≤ k → k < i + fuel → matchAt l q k = false := by
  induction fuel with
  | zero =>
    intro i _ k hk1 hk2
    omega
  | succ f ih =>
    intro i h k hk1 hk2
    unfold scanUp at h
    by_cases hm : matchAt l q i = true
    · rw [if_pos hm] at h
      exact Option.noConfusion h
    · have hm' : matchAt l q i = false := by
        simpa using hm
      rw [if_neg hm] at h
      rcases eq_or_ne k i with rfl | hki
      · exact hm'
      · exact ih (i + 1) h k (by omega) (by omega)

lemma nextMatch_some (l : List Service) (q : String) (c j : Nat)
    (h : nextMatch l q c = some j) :
    c < j ∧ j < l.length ∧ matchAt l q j = true ∧
      ∀ k, c < k → k < j → matchAt l q k = false := by
  obtain ⟨h1, h2, h3⟩ := scanUp_eq_some l q (l.length - (c + 1)) (c + 1) j h
  exact ⟨by omega, matchAt_lt l q j h2, h2, fun k hk1 hk2 => h3 k (by omega) hk2⟩

lemma nextMatch_none_iff (l : List Service) (q : String) (c : Nat) :
    nextMatch l q c = none ↔ ∀ j, c < j → matchAt l q j = false := by
  constructor
  · intro h j hj
    by_cases hcase : j < l.length
    · exact scanUp_none_imp l q (l.length - (c + 1)) (c + 1) h j (by omega) (by omega)
    · exact matchAt_false_of_le l q j (by omega)
  · intro h
    exact scanUp_eq_none l q _ (c + 1) (fun k hk => h k (by omega))

lemma scanDown_eq_none (l : List Service) (q : String) :
    ∀ i, (∀ k, k ≤ i → matchAt l q k = false) → scanDown l q i = none := by
  intro i
  induction i with
  | zero =>
    intro h
    unfold scanDown
    simp [h 0 le_rfl]
  | succ n ih =>
    intro h
    unfold scanDown
    rw [h (n + 1) le_rfl]
    simp only [Bool.false_eq_true, if_false]
    exact ih (fun k hk => h k (by omega))

lemma filter_range_least (p : Nat → Bool) (c j : Nat) (hcj : c < j) (hp : p j = true)
    (hleast : ∀ k, c < k → k < j → p k = false) :
    ∀ n, j < n →
      (List.range n).filter (fun i => decide (c < i) && p i) =
        j :: (List.range n).filter (fun i => decide (j < i) && p i) := by
  intro n
  induction n with
  | zero => omega
  | succ m ih =>
    intro hjm
    rw [List.range_succ, List.filter_append, List.filter_append]
    rcases eq_or_ne j m with rfl | hne
    · have h1 : (List.range j).filter (fun i => decide (c < i) && p i) = [] := by
        rw [List.filter_eq_nil_iff]
        intro i hi
        simp only [List.mem_range] at hi
        by_cases hci : c < i
        · simp [hleast i hci hi]
        · simp [hci]
      have h2 : (List.range j).filter (fun i => decide (j < i) && p i) = [] := by
        rw [List.filter_eq_nil_iff]
        intro i hi
        simp only [List.mem_range] at hi
        simp [show ¬ j < i by omega]
      rw [h1, h2]
      simp [List.filter, hp, hcj]
    · have hjm' : j < m := by omega
      rw [ih hjm']
      have hpm : (fun i => decide (c < i) && p i) m = (fun i => decide (j < i) && p i) m := by
        simp only [decide_eq_true (show c < m by omega), decide_eq_true hjm', Bool.true_and]
      simp only [List.cons_append]
      congr 1
      simp only [List.filter, hpm]

lemma cons_zero_filter (p : Nat → Bool) (hp : p 0 = true) :
    ∀ n, 0 < n →
      0 :: (List.range n).filter (fun i => decide (0 < i) && p i) =
        (List.range n).filter p := by
  intro n
  induction n with
  | zero => omega
  | succ m ih =>
    intro _
    rcases Nat.eq_zero_or_pos m with rfl | hm
    · simp [List.filter, hp]
    · rw [List.range_succ, List.filter_append, List.filter_append, ← ih hm]
      have hpm : (fun i => decide (0 < i) && p i) m = p m := by
        simp [decide_eq_true hm]
      simp only [List.cons_append, List.filter, hpm]

lemma visitChainF_eq (l : List Service) (q : String) :
    ∀ fuel c, l.length - c ≤ fuel →
      visitChainF l q c fuel =
        (List.range l.length).filter (fun i => decide (c < i) && matchAt l q i) := by
  intro fuel
  induction fuel with
  | zero =>
    intro c hc
    have hnil : (List.range l.length).filter (fun i => decide (c < i) && matchAt l q i) = [] := by
      rw [List.filter_eq_nil_iff]
      intro i hi
      simp only [List.mem_range] at hi
      simp [show ¬ c < i by omega]
    rw [hnil]
    rfl
  | succ f ih =>
    intro c hc
    unfold visitChainF
    cases hnm : nextMatch l q c with
    | none =>
      have hall := (nextMatch_none_iff l q c).mp hnm
      have hnil : (List.range l.length).filter (fun i => decide (c < i) && matchAt l q i) = [] := by
        rw [List.filter_eq_nil_iff]
        intro i hi
        simp only [List.mem_range] at hi
        by_cases hci : c < i
        · simp [hall i hci]
        · simp [hci]
      dsimp only
      exact hnil.symm
    | some j =>
      dsimp only
      obtain ⟨hcj, hjl, hmj, hleast⟩ := nextMatch_some l q c j hnm
      rw [ih j (by omega)]
      exact (filter_range_least (matchAt l q) c j hcj hmj hleast l.length hjl).symm

/-- C4: over the filtered list with the active query, the `n` search from
the last matching index and the `N` search from the first matching index
both report no match; in the no-match case the handler changes only the
status message; and the sequence of cursor positions produced by repeated
`n` presses from index 0 enumerates, in ascending order without repeats,
exactly the matching indices above 0 — so together with the start
position it covers every match exactly once whenever index 0 matches (as
it always does on a non-empty view filtered by the same query). -/
theorem match_navigator_spec (l : List Service) (q : String) :
    (∀ c, matchAt l q c = true → (∀ j, c < j → matchAt l q j = false) →
      nextMatch l q c = none) ∧
    (∀ c, matchAt l q c = true → (∀ j, j < c → matchAt l q j = false) →
      prevMatch l q c = none) ∧
    (∀ ml st, st.filter_q = some q → q ≠ "" → st.services = l → l ≠ [] →
      (nextMatch l q st.cursor.toNat = none →
        keyStep ml st Ev.keyN = { st with status_msg := "no more matches" }) ∧
      (prevMatch l q st.cursor.toNat = none →
        keyStep ml st Ev.keyNBig = { st with status_msg := "no previous match" })) ∧
    visitSeq l q 0 = (List.range l.length).filter (fun i => decide (0 < i) && matchAt l q i) ∧
    (matchAt l q 0 = true →
      0 :: visitSeq l q 0 = (List.range l.length).filter (matchAt l q)) := by
  have hvisit : visitSeq l q 0 =
      (List.range l.length).filter (fun i => decide (0 < i) && matchAt l q i) :=
    visitChainF_eq l q l.length 0 (by omega)
  refine ⟨?_, ?_, ?_, hvisit, ?_⟩
  · intro c _ hafter
    exact (nextMatch_none_iff l q c).mpr hafter
  · intro c hm hbefore
    cases c with
    | zero => rfl
    | succ n =>
      exact scanDown_eq_none l q n (fun k hk => hbefore k (by omega))
  · intro ml st hfq hqne hsv hne
    have hemp : l.isEmpty = false := by
      cases l with
      | nil => exact absurd rfl hne
      | cons a t => rfl
    constructor
    · intro hnone
      simp only [keyStep, hfq, hsv]
      rw [if_pos ⟨hqne, hemp⟩, hnone]
    · intro hnone
      simp only [keyStep, hfq, hsv]
      rw [if_pos ⟨hqne, hemp⟩, hnone]
  · intro h0
    rw [hvisit]
    exact cons_zero_filter (matchAt l q) h0 l.length (matchAt_lt l q 0 h0)

/-- Witness for C4 at a concrete one-element filtered list and its query. -/
theorem match_navigator_spec_witness :
    nextMatch [sshSvc] "ssh" 0 = none ∧
    prevMatch [sshSvc] "ssh" 0 = none ∧
    keyStep 10 stNav Ev.keyN = { stNav with status_msg := "no more matches" } ∧
    0 :: visitSeq [sshSvc] "ssh" 0 = [0] := by
  have h := match_navigator_spec [sshSvc] "ssh"
  refine ⟨?_, ?_, ?_, ?_⟩
  · apply h.1 0 (by decide)
    intro j hj
    cases j with
    | zero => omega
    | succ n => rfl
  · exact h.2.1 0 (by decide) (fun j hj => by omega)
  · exact (h.2.2.1 10 stNav rfl (by decide) rfl (by decide)).1 (by rfl)
  · rw [h.2.2.2.2 (by decide)]
    decide

end ServiceTui
